import Mathlib

/-!
Verification development for the `zet` command-line tool (Go sources:
`cmd/root.go` and the internal `git` package).  The Go functions are
shallowly embedded as pure Lean functions; external effects (the clock,
the filesystem, the `git` binary, the go-git library calls) enter as
explicit environment/oracle parameters, and the observable effects of a
run (staged paths, commits, pushes, filesystem state) are returned as
explicit values.
-/

namespace Zet

/-! ### Go string primitives

Models of the `strings` package functions used by the sources, working on
`String.data` (`List Char`).  For the ASCII identifiers and paths involved
here, char-level containment coincides with Go's byte-level
`strings.Contains`. -/

/-- `leadsWith sub s` is true when `sub` occurs at the very start of `s`
(Go `strings.HasPrefix s sub`). -/
def leadsWith : List Char → List Char → Bool
  | [], _ => true
  | _ :: _, [] => false
  | a :: as, b :: bs => a == b && leadsWith as bs

/-- `containsSub sub s` is true when `sub` occurs contiguously anywhere in
`s` (Go `strings.Contains s sub`). -/
def containsSub (sub : List Char) : List Char → Bool
  | [] => leadsWith sub []
  | c :: t => leadsWith sub (c :: t) || containsSub sub t

/-- Go `strings.Contains s sub` on `String`. -/
def goContains (s sub : String) : Bool :=
  containsSub sub.data s.data

/-- Go `strings.HasPrefix s pre` on `String`. -/
def strLeads (pre s : String) : Bool :=
  leadsWith pre.data s.data

/-- Go `strings.TrimRight(s, "\000")`: remove every trailing NUL char. -/
def trimRightNull (s : String) : String :=
  ⟨(s.data.reverse.dropWhile (fun c => c == '\x00')).reverse⟩

/-! ### `git config` execution model (internal git package)

`execGitConfig` runs `git config --get --null <scope> <key>`.  The outcome
of that subprocess is an oracle: it either succeeds with some stdout,
exits with a nonzero status (Go `*exec.ExitError` carrying a
`WaitStatus`), or fails in some other way (e.g. spawn failure). -/

/-- Outcome of running the external `git config` subprocess. -/
inductive ExecResult where
  /-- The process ran and exited 0; `stdout` is its standard output. -/
  | success (stdout : String)
  /-- The process exited with the given nonzero status (`*exec.ExitError`). -/
  | exitErr (code : Nat)
  /-- Any other failure of `cmd.Run` (not an `*exec.ExitError`). -/
  | otherErr
  deriving DecidableEq

/-- Oracle for the `git config` subprocess: result of
`git config --get --null <scope> <key>` for a scope flag
(`"--local"` / `"--global"`) and key. -/
structure GitConfigEnv where
  run : String → String → ExecResult

/-- Error type of `execGitConfig`: the distinguished `ErrNotFound{Key: k}`
(exit status 1) versus every other failure. -/
inductive GitConfigErr where
  /-- `ErrNotFound` with the looked-up key: exit status was exactly 1. -/
  | notFound (key : String)
  /-- Any other failure (nonzero exit other than 1, or a non-exit error). -/
  | failure
  deriving DecidableEq

/-- `execGitConfig` from the internal git package, specialised to its two
call shapes `(scopeFlag, key)`: run `git config --get --null scope key`;
exit status 1 becomes `ErrNotFound` for the key (the last argument),
any other failure is passed through, and on success the stdout is
returned with trailing NULs trimmed. -/
def execGitConfig (env : GitConfigEnv) (scope key : String) : Except GitConfigErr String :=
  match env.run scope key with
  | .success out => .ok (trimRightNull out)
  | .exitErr code => if code == 1 then .error (.notFound key) else .error .failure
  | .otherErr => .error .failure

/-- `localGitConfig key = execGitConfig("--local", key)`. -/
def localGitConfig (env : GitConfigEnv) (key : String) : Except GitConfigErr String :=
  execGitConfig env "--local" key

/-- `globalGitConfig key = execGitConfig("--global", key)`. -/
def globalGitConfig (env : GitConfigEnv) (key : String) : Except GitConfigErr String :=
  execGitConfig env "--global" key

/-- `true` for `.ok`, mirroring a Go `err == nil` test. -/
def exceptOk {ε α : Type} : Except ε α → Bool
  | .ok _ => true
  | .error _ => false

/-- `getUserInfo` from the internal git package.  Reads `user.name` and
`user.email` from local git config; if EITHER lookup returned a non-nil
error (of any kind), BOTH are re-read from global config; if either
result still carries an error, the whole resolution fails.  The string
values carried alongside a non-nil Go error are `""` and are never used,
so the `Except` form is faithful. -/
def getUserInfo (env : GitConfigEnv) : Except String (String × String) :=
  let userRes := localGitConfig env "user.name"
  let emailRes := localGitConfig env "user.email"
  let userRes2 := if exceptOk userRes && exceptOk emailRes then userRes
    else globalGitConfig env "user.name"
  let emailRes2 := if exceptOk userRes && exceptOk emailRes then emailRes
    else globalGitConfig env "user.email"
  match userRes2, emailRes2 with
  | .ok u, .ok e => .ok (u, e)
  | _, _ => .error "git: username and email not found"

/-! ### Publisher: `PushZettel` (internal git package)

`PushZettel(zettelId, repo)` runs a linear sequence of go-git calls.  Each
library call's success or failure is an oracle in `PushEnv`; the worktree
status map is given by its key list in the map's iteration order.  A
failure routed through `handlePushZettelErr` calls `log.Fatal` — the
process exits and the function never returns — while the empty-status
and no-match checks return `(nil, error)` to the caller.  Observable git
effects (paths passed to `worktree.Add`, commits created, pushes) are
collected in a `GitTrace`. -/

/-- The commit data `PushZettel` creates: message plus the author
signature fields drawn from the resolved identity. -/
structure CommitInfo where
  message : String
  authorName : String
  authorEmail : String
  deriving DecidableEq

/-- How an invocation of `PushZettel` ends. -/
inductive PushOutcome where
  /-- `log.Fatal` via `handlePushZettelErr`: the process terminates and the
  function never returns to its caller. -/
  | fatal
  /-- The function returns `(nil, errors.New msg)` to its caller. -/
  | retErr (msg : String)
  /-- The function returns the commit object. -/
  | retOk (c : CommitInfo)
  deriving DecidableEq

/-- Observable git effects of a `PushZettel` run: every path passed to
`worktree.Add`, every commit created by `worktree.Commit`, and the
number of `repo.Push` calls that succeeded. -/
structure GitTrace where
  staged : List String
  commits : List CommitInfo
  pushes : Nat
  deriving DecidableEq

/-- The empty trace: no staging, no commit, no push happened. -/
def GitTrace.none : GitTrace := ⟨[], [], 0⟩

/-- Oracle environment for one `PushZettel` run: the `git config`
subprocess results plus the success/failure of each go-git call, and the
worktree status map's keys in iteration order. -/
structure PushEnv where
  gitConfig : GitConfigEnv
  /-- Does `repo.Worktree()` succeed? -/
  worktreeOk : Bool
  /-- Result of `worktree.Status()`: its keys in map-iteration order. -/
  statusResult : Except Unit (List String)
  /-- Does `worktree.Add path` succeed? -/
  addOk : String → Bool
  /-- Does `worktree.Commit` succeed? -/
  commitOk : Bool
  /-- Does `ssh.DefaultAuthBuilder "git"` succeed? -/
  authOk : Bool
  /-- Does `repo.Push` succeed? -/
  pushOk : Bool
  /-- Does `repo.CommitObject commit` succeed? -/
  commitObjOk : Bool

/-- The change-matching loop of `PushZettel`: `change` starts out as the
empty string and is set to the first element of `changes` containing
`zettelId`, breaking at the first hit. -/
def findChange (changes : List String) (zettelId : String) : String :=
  match changes with
  | [] => ""
  | c :: rest => if goContains c zettelId then c else findChange rest zettelId

/-- `PushZettel` from the internal git package, as a straight-line
translation.  Steps in order: `getUserInfo`, `repo.Worktree()`,
`worktree.Status()`, the empty-status check, the change-matching loop and
its `change == ""` check, `worktree.Add`, `worktree.Commit`,
`ssh.DefaultAuthBuilder`, `repo.Push`, `repo.CommitObject`.  Failures of
the go-git/`getUserInfo` steps go through `handlePushZettelErr`
(`log.Fatal`); the two checks return error values. -/
def pushZettel (env : PushEnv) (zettelId : String) : PushOutcome × GitTrace :=
  match getUserInfo env.gitConfig with
  | .error _ => (.fatal, GitTrace.none)
  | .ok (username, email) =>
    if env.worktreeOk = false then (.fatal, GitTrace.none) else
    match env.statusResult with
    | .error _ => (.fatal, GitTrace.none)
    | .ok changes =>
      if changes.length == 0 then (.retErr "git: no changes detected", GitTrace.none) else
      let change := findChange changes zettelId
      if change == "" then
        (.retErr ("git: no changes detected for zettel " ++ zettelId), GitTrace.none)
      else
        let t1 : GitTrace := ⟨[change], [], 0⟩
        if env.addOk change = false then (.fatal, t1) else
        if env.commitOk = false then (.fatal, t1) else
        let cinfo : CommitInfo := ⟨"Add zettel " ++ zettelId, username, email⟩
        let t2 : GitTrace := ⟨[change], [cinfo], 0⟩
        if env.authOk = false then (.fatal, t2) else
        if env.pushOk = false then (.fatal, t2) else
        let t3 : GitTrace := ⟨[change], [cinfo], 1⟩
        if env.commitObjOk = false then (.fatal, t3) else
        (.retOk cinfo, t3)

/-! ### Entry Creator: `createZettel` (cmd/root.go)

The filesystem is a list of existing directories plus a list of
`(path, content)` files; `os.Mkdir`, `os.Create`, `File.WriteString` and
`os.RemoveAll` act on it, with the success of each injected by an
`FsEnv` oracle (a failed `mkdir`/`Create` creates nothing, per POSIX; a
failed `WriteString` is modelled as writing nothing).  The identifier
`isosec` — in the source the value of `generateIsosec()` at the current
UTC instant — is a parameter. -/

/-- Filesystem state: existing directories and files with contents. -/
structure FsState where
  dirs : List String
  files : List (String × String)
  deriving DecidableEq

/-- Success oracle for the filesystem calls made by `createZettel`. -/
structure FsEnv where
  mkdirOk : Bool
  createOk : Bool
  writeOk : Bool
  deriving DecidableEq

/-- The `Zettel` record of cmd/root.go: `Id`, `Path` (the wrapper
directory) and the created file, represented by its name
(`zettel.File.Name()`). -/
structure Zettel where
  id : String
  path : String
  fileName : String
  deriving DecidableEq

/-- Errors of `createZettel`: the propagated `os.Mkdir` error and the
propagated `os.Create` error. -/
inductive CreateErr where
  | dirCreate
  | fileCreate
  deriving DecidableEq

/-- `os.RemoveAll p`: remove `p` and everything under it (any path having
`p ++ "/"` as a prefix). -/
def removeAll (fs : FsState) (p : String) : FsState :=
  { dirs := fs.dirs.filter (fun d => !(d == p || strLeads (p ++ "/") d)),
    files := fs.files.filter (fun f => !(f.1 == p || strLeads (p ++ "/") f.1)) }

/-- `file.WriteString s` on the file at path `p`: append `s` to its
content when the write succeeds, write nothing when it fails. -/
def fsWriteString (fs : FsState) (p s : String) (ok : Bool) : FsState :=
  if ok then
    { fs with files := fs.files.map (fun f => if f.1 == p then (f.1, f.2 ++ s) else f) }
  else fs

/-- Content of the file at `p`, if present. -/
def readFile (fs : FsState) (p : String) : Option String :=
  (fs.files.find? (fun f => f.1 == p)).map (fun f => f.2)

/-- `createZettel path` from cmd/root.go: build
`wrapperDir = path ++ "/" ++ isosec`, `os.Mkdir` it (propagate failure
with nothing created), `os.Create` `wrapperDir ++ "/README.md"` (on
failure `os.RemoveAll wrapperDir`, then propagate), write the pre-filled
title `"# " ++ isosec` with the write error discarded, and return the
populated `Zettel`.  The deferred `Close` releases the handle and has no
further observable filesystem effect here. -/
def createZettel (env : FsEnv) (fs : FsState) (path isosec : String) :
    Except CreateErr Zettel × FsState :=
  let wrapperDir := path ++ "/" ++ isosec
  if env.mkdirOk = false then (.error .dirCreate, fs) else
  let fs1 : FsState := { fs with dirs := fs.dirs ++ [wrapperDir] }
  let zettelPath := wrapperDir ++ "/README.md"
  if env.createOk = false then (.error .fileCreate, removeAll fs1 wrapperDir) else
  let fs2 : FsState := { fs1 with files := fs1.files ++ [(zettelPath, "")] }
  let fs3 := fsWriteString fs2 zettelPath ("# " ++ isosec) env.writeOk
  (.ok ⟨isosec, wrapperDir, zettelPath⟩, fs3)

/-! ### Identifier generation: `generateIsosec` (cmd/root.go)

`generateIsosec()` returns `time.Now().UTC().Format("20060102150405")`.
The current UTC instant is injected as an `Instant` (calendar fields at
one-second granularity).  Each layout field (`2006`, `01`, `02`, `15`,
`04`, `05`) renders its value as zero-padded fixed-width decimal;
`padDigits` reproduces Go's output for in-range field values (months,
days, hours, minutes, seconds in calendar range; years 0–9999, the range
the four-digit `2006` field covers). -/

/-- The decimal digit character for `n < 10`. -/
def decDigit (n : Nat) : Char :=
  match n with
  | 0 => '0' | 1 => '1' | 2 => '2' | 3 => '3' | 4 => '4'
  | 5 => '5' | 6 => '6' | 7 => '7' | 8 => '8' | _ => '9'

/-- Zero-padded fixed-width decimal rendering: the `w` decimal digits of
`n` (most significant first).  For `n < 10^w` this is exactly Go's
zero-padded field output. -/
def padDigits : Nat → Nat → List Char
  | 0, _ => []
  | w + 1, n => decDigit (n / 10 ^ w) :: padDigits w (n % 10 ^ w)

/-- A UTC instant at one-second granularity, as the six calendar fields
the `"20060102150405"` layout renders. -/
structure Instant where
  year : Nat
  month : Nat
  day : Nat
  hour : Nat
  minute : Nat
  second : Nat
  deriving DecidableEq

/-- Calendar validity of an instant, with the year within the range the
four-digit `2006` layout field covers. -/
def Instant.Valid (t : Instant) : Prop :=
  t.year ≤ 9999 ∧ 1 ≤ t.month ∧ t.month ≤ 12 ∧ 1 ≤ t.day ∧ t.day ≤ 31 ∧
    t.hour ≤ 23 ∧ t.minute ≤ 59 ∧ t.second ≤ 59

instance (t : Instant) : Decidable t.Valid := by
  unfold Instant.Valid; infer_instance

/-- Strict chronological order on instants.  At one-second granularity,
`a.before b` says exactly that `b` is at least one second after `a`. -/
def Instant.before (a b : Instant) : Prop :=
  a.year < b.year ∨ (a.year = b.year ∧
    (a.month < b.month ∨ (a.month = b.month ∧
      (a.day < b.day ∨ (a.day = b.day ∧
        (a.hour < b.hour ∨ (a.hour = b.hour ∧
          (a.minute < b.minute ∨ (a.minute = b.minute ∧
            a.second < b.second)))))))))

instance (a b : Instant) : Decidable (a.before b) := by
  unfold Instant.before; infer_instance

/-- The numeric reading of an instant's `YYYYMMDDHHMMSS` rendering. -/
def Instant.key (t : Instant) : Nat :=
  ((((t.year * 100 + t.month) * 100 + t.day) * 100 + t.hour) * 100 +
    t.minute) * 100 + t.second

/-- The character sequence of `Format("20060102150405")`: the six
zero-padded fields concatenated. -/
def isosecChars (t : Instant) : List Char :=
  padDigits 4 t.year ++ padDigits 2 t.month ++ padDigits 2 t.day ++
    padDigits 2 t.hour ++ padDigits 2 t.minute ++ padDigits 2 t.second

/-- `generateIsosec` from cmd/root.go, over the injected current UTC
instant: `time.Now().UTC().Format("20060102150405")`. -/
def generateIsosec (now : Instant) : String :=
  ⟨isosecChars now⟩

/-- ASCII digit test used to state the spec's "14 ASCII digits". -/
def isAsciiDigit (c : Char) : Bool :=
  48 ≤ c.toNat && c.toNat ≤ 57

/-- The number an ASCII-digit sequence denotes in decimal. -/
def digitsVal (l : List Char) : Nat :=
  l.foldl (fun a c => a * 10 + (c.toNat - 48)) 0

/-! ### Helper lemmas: strings and change matching -/

theorem leadsWith_length : ∀ sub s : List Char, leadsWith sub s = true →
    sub.length ≤ s.length
  | [], s, _ => by simp
  | a :: as, [], h => by simp [leadsWith] at h
  | a :: as, b :: bs, h => by
    simp only [leadsWith, Bool.and_eq_true] at h
    simpa using leadsWith_length as bs h.2

theorem containsSub_length : ∀ sub s : List Char, containsSub sub s = true →
    sub.length ≤ s.length
  | sub, [], h => leadsWith_length sub [] h
  | sub, c :: t, h => by
    simp only [containsSub, Bool.or_eq_true] at h
    rcases h with h | h
    · exact leadsWith_length _ _ h
    · exact le_trans (containsSub_length sub t h) (by simp)

theorem goContains_length {s sub : String} (h : goContains s sub = true) :
    sub.data.length ≤ s.data.length :=
  containsSub_length _ _ h

/-- A string containing a nonempty substring is itself nonempty. -/
theorem ne_empty_of_goContains {s sub : String} (hsub : sub ≠ "")
    (h : goContains s sub = true) : s ≠ "" := by
  intro hs
  subst hs
  have hlen := goContains_length h
  have hnil : sub.data = [] := List.eq_nil_of_length_eq_zero (by simpa using hlen)
  exact hsub (String.ext (by simpa using hnil))

/-- The matching loop returns the first status key containing the
identifier (library first-match semantics via `List.find?`). -/
theorem findChange_eq_find? (changes : List String) (id : String) :
    findChange changes id = ((changes.find? fun c => goContains c id).getD "") := by
  induction changes with
  | nil => rfl
  | cons c rest ih =>
    by_cases h : goContains c id = true
    · simp [findChange, h, List.find?_cons_of_pos]
    · simp only [Bool.not_eq_true] at h
      simp [findChange, h, List.find?_cons_of_neg, ih]

theorem findChange_spec {changes : List String} {id : String}
    (h : ∃ k ∈ changes, goContains k id = true) :
    findChange changes id ∈ changes ∧ goContains (findChange changes id) id = true := by
  obtain ⟨k, hk, hc⟩ := h
  have hsome : (changes.find? fun c => goContains c id).isSome := by
    rw [List.find?_isSome]
    exact ⟨k, hk, hc⟩
  obtain ⟨r, hr⟩ := Option.isSome_iff_exists.mp hsome
  rw [findChange_eq_find?, hr]
  simp only [Option.getD_some]
  have hp := @List.find?_some String (fun c => goContains c id) r changes hr
  exact ⟨List.mem_of_find?_eq_some hr, by simpa using hp⟩

theorem findChange_ne_empty {changes : List String} {id : String} (hid : id ≠ "")
    (h : ∃ k ∈ changes, goContains k id = true) : findChange changes id ≠ "" :=
  ne_empty_of_goContains hid (findChange_spec h).2

/-- When no status key contains the identifier, the loop leaves `change`
as the empty string. -/
theorem findChange_eq_empty {changes : List String} {id : String}
    (h : ∀ k ∈ changes, goContains k id = false) : findChange changes id = "" := by
  induction changes with
  | nil => rfl
  | cons c rest ih =>
    have hc := h c (by simp)
    simp only [findChange, hc, Bool.false_eq_true, if_false]
    exact ih fun k hk => h k (by simp [hk])

/-! ### Helper lemmas: zero-padded decimal rendering -/

theorem padDigits_length : ∀ w n, (padDigits w n).length = w
  | 0, _ => rfl
  | w + 1, n => by simp [padDigits, padDigits_length w]

theorem decDigit_isDigit : ∀ n, n < 10 → isAsciiDigit (decDigit n) = true := by decide

theorem decDigit_toNat : ∀ n, n < 10 → (decDigit n).toNat = 48 + n := by decide

theorem decDigit_strictMono : ∀ a, a < 10 → ∀ b, b < 10 → a < b →
    decDigit a < decDigit b := by decide

theorem div_pow_lt_ten {w n : Nat} (h : n < 10 ^ (w + 1)) : n / 10 ^ w < 10 :=
  Nat.div_lt_of_lt_mul (by rw [← pow_succ]; exact h)

theorem padDigits_all_digit : ∀ w n, n < 10 ^ w →
    (padDigits w n).all isAsciiDigit = true
  | 0, _, _ => rfl
  | w + 1, n, h => by
    simp only [padDigits, List.all_cons, Bool.and_eq_true]
    exact ⟨decDigit_isDigit _ (div_pow_lt_ten h),
      padDigits_all_digit w (n % 10 ^ w) (Nat.mod_lt _ (pow_pos (by norm_num) w))⟩

theorem foldl_padDigits : ∀ w n acc, n < 10 ^ w →
    (padDigits w n).foldl (fun a c => a * 10 + (c.toNat - 48)) acc = acc * 10 ^ w + n
  | 0, n, acc, h => by
    have hn : n = 0 := by simpa using h
    simp [padDigits, hn]
  | w + 1, n, acc, h => by
    have hdiv : n / 10 ^ w < 10 := div_pow_lt_ten h
    have hmod : n % 10 ^ w < 10 ^ w := Nat.mod_lt _ (pow_pos (by norm_num) w)
    simp only [padDigits, List.foldl_cons]
    rw [decDigit_toNat _ hdiv, foldl_padDigits w _ _ hmod]
    have hdm := Nat.div_add_mod n (10 ^ w)
    have hp : (10 : ℕ) ^ (w + 1) = 10 ^ w * 10 := pow_succ 10 w
    calc (acc * 10 + (48 + n / 10 ^ w - 48)) * 10 ^ w + n % 10 ^ w
        = acc * (10 ^ w * 10) + (10 ^ w * (n / 10 ^ w) + n % 10 ^ w) := by
          have h48 : 48 + n / 10 ^ w - 48 = n / 10 ^ w := Nat.add_sub_cancel_left 48 (n / 10 ^ w)
          rw [h48]; ring
      _ = acc * 10 ^ (w + 1) + n := by rw [hdm, hp]

theorem digitsVal_padDigits {w n : Nat} (h : n < 10 ^ w) :
    digitsVal (padDigits w n) = n := by
  unfold digitsVal
  rw [foldl_padDigits w n 0 h]
  simp

theorem padDigits_append : ∀ w1 w2 a b, a < 10 ^ w1 → b < 10 ^ w2 →
    padDigits (w1 + w2) (a * 10 ^ w2 + b) = padDigits w1 a ++ padDigits w2 b
  | 0, w2, a, b, ha, _ => by
    have haz : a = 0 := by simpa using ha
    simp [haz, padDigits]
  | w1 + 1, w2, a, b, ha, hb => by
    have hpos : 0 < (10 : ℕ) ^ w1 := pow_pos (by norm_num) w1
    have hq := Nat.div_add_mod a (10 ^ w1)
    have hr : a % 10 ^ w1 < 10 ^ w1 := Nat.mod_lt _ hpos
    have hs : (a % 10 ^ w1) * 10 ^ w2 + b < 10 ^ (w1 + w2) := by
      have h1 : a % 10 ^ w1 + 1 ≤ 10 ^ w1 := hr
      have h2 : (a % 10 ^ w1 + 1) * 10 ^ w2 ≤ 10 ^ w1 * 10 ^ w2 :=
        Nat.mul_le_mul_right _ h1
      rw [pow_add]
      calc (a % 10 ^ w1) * 10 ^ w2 + b < (a % 10 ^ w1) * 10 ^ w2 + 10 ^ w2 := by omega
        _ = (a % 10 ^ w1 + 1) * 10 ^ w2 := by ring
        _ ≤ 10 ^ w1 * 10 ^ w2 := h2
    have hx : a * 10 ^ w2 + b
        = ((a % 10 ^ w1) * 10 ^ w2 + b) + 10 ^ (w1 + w2) * (a / 10 ^ w1) := by
      calc a * 10 ^ w2 + b
          = (10 ^ w1 * (a / 10 ^ w1) + a % 10 ^ w1) * 10 ^ w2 + b := by rw [hq]
        _ = ((a % 10 ^ w1) * 10 ^ w2 + b) + (10 ^ w1 * 10 ^ w2) * (a / 10 ^ w1) := by
            ring
        _ = ((a % 10 ^ w1) * 10 ^ w2 + b) + 10 ^ (w1 + w2) * (a / 10 ^ w1) := by
            rw [pow_add]
    have hww : w1 + 1 + w2 = w1 + w2 + 1 := by omega
    rw [hww]
    simp only [padDigits, List.cons_append]
    congr 1
    · rw [hx, Nat.add_mul_div_left _ _ (pow_pos (by norm_num) (w1 + w2)),
        Nat.div_eq_of_lt hs, Nat.zero_add]
    · rw [hx, Nat.add_mul_mod_self_left, Nat.mod_eq_of_lt hs]
      exact padDigits_append w1 w2 (a % 10 ^ w1) b hr hb

theorem padDigits_lt : ∀ w a b, a < b → b < 10 ^ w →
    padDigits w a < padDigits w b
  | 0, a, b, hab, hb => by
    exact absurd hab (by simp at hb; omega)
  | w + 1, a, b, hab, hb => by
    have hbd : b / 10 ^ w < 10 := div_pow_lt_ten hb
    have had : a / 10 ^ w < 10 := div_pow_lt_ten (lt_trans hab hb)
    simp only [padDigits]
    rcases Nat.lt_or_ge (a / 10 ^ w) (b / 10 ^ w) with h | h
    · exact List.Lex.rel (decDigit_strictMono _ had _ hbd h)
    · have heq : a / 10 ^ w = b / 10 ^ w :=
        Nat.le_antisymm (Nat.div_le_div_right (le_of_lt hab)) h
      rw [heq]
      apply List.Lex.cons
      apply padDigits_lt w
      · have ha' := Nat.div_add_mod a (10 ^ w)
        have hb' := Nat.div_add_mod b (10 ^ w)
        rw [heq] at ha'
        generalize 10 ^ w * (b / 10 ^ w) = K at ha' hb'
        omega
      · exact Nat.mod_lt _ (pow_pos (by norm_num) w)

/-! ### Helper lemmas: the isosec identifier -/

theorem Instant.key_lt {a b : Instant} (ha : a.Valid) (hb : b.Valid)
    (h : a.before b) : a.key < b.key := by
  obtain ⟨a1, a2, a3, a4, a5, a6, a7, a8⟩ := ha
  obtain ⟨b1, b2, b3, b4, b5, b6, b7, b8⟩ := hb
  unfold Instant.before at h
  unfold Instant.key
  omega

theorem Instant.key_lt_pow {t : Instant} (h : t.Valid) : t.key < 10 ^ 14 := by
  obtain ⟨h1, h2, h3, h4, h5, h6, h7, h8⟩ := h
  have hp : (10 : ℕ) ^ 14 = 100000000000000 := by norm_num
  unfold Instant.key
  omega

theorem isosecChars_eq_key {t : Instant} (ht : t.Valid) :
    isosecChars t = padDigits 14 t.key := by
  obtain ⟨h1, h2, h3, h4, h5, h6, h7, h8⟩ := ht
  have p2 : (10 : ℕ) ^ 2 = 100 := by norm_num
  have e5 : padDigits 14 t.key
      = padDigits 12 ((((t.year * 100 + t.month) * 100 + t.day) * 100 + t.hour)
          * 100 + t.minute) ++ padDigits 2 t.second := by
    rw [show (14 : ℕ) = 12 + 2 from rfl,
      show t.key = ((((t.year * 100 + t.month) * 100 + t.day) * 100 + t.hour) * 100
        + t.minute) * 10 ^ 2 + t.second from by rw [p2]; rfl]
    exact padDigits_append 12 2 _ _ (by norm_num; omega) (by omega)
  have e4 : padDigits 12 ((((t.year * 100 + t.month) * 100 + t.day) * 100 + t.hour)
        * 100 + t.minute)
      = padDigits 10 (((t.year * 100 + t.month) * 100 + t.day) * 100 + t.hour)
        ++ padDigits 2 t.minute := by
    rw [show (12 : ℕ) = 10 + 2 from rfl,
      show (((t.year * 100 + t.month) * 100 + t.day) * 100 + t.hour) * 100 + t.minute
        = (((t.year * 100 + t.month) * 100 + t.day) * 100 + t.hour) * 10 ^ 2
          + t.minute from by rw [p2]]
    exact padDigits_append 10 2 _ _ (by norm_num; omega) (by omega)
  have e3 : padDigits 10 (((t.year * 100 + t.month) * 100 + t.day) * 100 + t.hour)
      = padDigits 8 ((t.year * 100 + t.month) * 100 + t.day)
        ++ padDigits 2 t.hour := by
    rw [show (10 : ℕ) = 8 + 2 from rfl,
      show ((t.year * 100 + t.month) * 100 + t.day) * 100 + t.hour
        = ((t.year * 100 + t.month) * 100 + t.day) * 10 ^ 2 + t.hour from by rw [p2]]
    exact padDigits_append 8 2 _ _ (by norm_num; omega) (by omega)
  have e2 : padDigits 8 ((t.year * 100 + t.month) * 100 + t.day)
      = padDigits 6 (t.year * 100 + t.month) ++ padDigits 2 t.day := by
    rw [show (8 : ℕ) = 6 + 2 from rfl,
      show (t.year * 100 + t.month) * 100 + t.day
        = (t.year * 100 + t.month) * 10 ^ 2 + t.day from by rw [p2]]
    exact padDigits_append 6 2 _ _ (by norm_num; omega) (by omega)
  have e1 : padDigits 6 (t.year * 100 + t.month)
      = padDigits 4 t.year ++ padDigits 2 t.month := by
    rw [show (6 : ℕ) = 4 + 2 from rfl,
      show t.year * 100 + t.month = t.year * 10 ^ 2 + t.month from by rw [p2]]
    exact padDigits_append 4 2 _ _ (by norm_num; omega) (by omega)
  rw [isosecChars, e5, e4, e3, e2, e1]

theorem isosec_lt {t1 t2 : Instant} (h1 : t1.Valid) (h2 : t2.Valid)
    (h : t1.before t2) : generateIsosec t1 < generateIsosec t2 := by
  rw [String.lt_iff_toList_lt]
  show isosecChars t1 < isosecChars t2
  rw [isosecChars_eq_key h1, isosecChars_eq_key h2]
  exact padDigits_lt 14 _ _ (Instant.key_lt h1 h2 h) (Instant.key_lt_pow h2)

/-! ### Helper lemmas: filesystem model -/

theorem leadsWith_append (l m : List Char) : leadsWith l (l ++ m) = true := by
  induction l with
  | nil => rfl
  | cons a as ih => simp [leadsWith, ih]

theorem strLeads_append (pre rest : String) : strLeads pre (pre ++ rest) = true := by
  unfold strLeads
  rw [String.data_append]
  exact leadsWith_append pre.data rest.data

/-- `p` names nothing in `fs`: no directory or file is `p` or lies under
`p/`.  Holds for any state in which the directory `p` does not yet
exist. -/
def FsState.cleanFor (fs : FsState) (p : String) : Prop :=
  (∀ d ∈ fs.dirs, (d == p || strLeads (p ++ "/") d) = false) ∧
  (∀ f ∈ fs.files, (f.1 == p || strLeads (p ++ "/") f.1) = false)

instance (fs : FsState) (p : String) : Decidable (fs.cleanFor p) := by
  unfold FsState.cleanFor; infer_instance

/-- Removing a directory just added to a clean state restores the state:
the rollback `os.RemoveAll wrapperDir` cancels `os.Mkdir wrapperDir`. -/
theorem removeAll_cancel {fs : FsState} {p : String} (h : fs.cleanFor p) :
    removeAll { fs with dirs := fs.dirs ++ [p] } p = fs := by
  obtain ⟨hd, hf⟩ := h
  cases fs with
  | mk dirs files =>
    simp only [removeAll, FsState.mk.injEq]
    constructor
    · rw [List.filter_append]
      have h1 : dirs.filter (fun d => !(d == p || strLeads (p ++ "/") d)) = dirs :=
        List.filter_eq_self.mpr fun d hdm => by rw [hd d hdm]; rfl
      have h2 : [p].filter (fun d => !(d == p || strLeads (p ++ "/") d)) = [] := by
        simp
      rw [h1, h2, List.append_nil]
    · exact List.filter_eq_self.mpr fun f hfm => by rw [hf f hfm]; rfl

/-- A clean pre-state has no file at any path under `p/`. -/
theorem cleanFor_files_ne {fs : FsState} {p q : String} (h : fs.cleanFor p)
    (hq : strLeads (p ++ "/") q = true) :
    ∀ f ∈ fs.files, (f.1 == q) = false := by
  intro f hfm
  have hfalse := h.2 f hfm
  rw [beq_eq_false_iff_ne]
  intro hcontra
  rw [← hcontra] at hq
  rw [hq] at hfalse
  simp at hfalse

theorem string_empty_append (s : String) : "" ++ s = s := by
  cases s with
  | mk l => rfl

/-- No file of the mapped (post-write) pre-state matches the new path. -/
theorem find?_write_update (files : List (String × String)) (zp s : String)
    (h : ∀ f ∈ files, (f.1 == zp) = false) :
    (files.map (fun f => if f.1 == zp then (f.1, f.2 ++ s) else f)).find?
      (fun f => f.1 == zp) = none := by
  rw [List.find?_eq_none]
  intro x hx
  rw [List.mem_map] at hx
  obtain ⟨a, ha, rfl⟩ := hx
  have hne := h a ha
  simp [hne]

/-! ### Concrete states for witnesses -/

/-- A small filesystem with an unrelated pre-existing file. -/
def fsDemo : FsState := ⟨["zk"], [("zk/old.md", "old stuff")]⟩

/-! ### Claims about the Entry Creator -/

/-- C3: for every `createZettel` invocation, a directory-creation failure
returns `DirectoryCreateError` with nothing created on disk (the
filesystem state is unchanged), and a content-file-creation failure rolls
the just-created directory back with `os.RemoveAll` before returning
`FileCreateError`, likewise leaving the filesystem exactly as before — no
directory without its file survives either failure. -/
theorem createZettel_failure_leaves_no_trace (env : FsEnv) (fs : FsState)
    (path isosec : String) (hclean : fs.cleanFor (path ++ "/" ++ isosec)) :
    (env.mkdirOk = false →
      createZettel env fs path isosec = (.error .dirCreate, fs)) ∧
    (env.mkdirOk = true → env.createOk = false →
      createZettel env fs path isosec = (.error .fileCreate, fs)) := by
  constructor
  · intro hm
    simp [createZettel, hm]
  · intro hm hc
    simp only [createZettel, hm, hc, Bool.true_eq_false, Bool.false_eq_true,
      eq_self_iff_true, if_true, if_false]
    rw [removeAll_cancel hclean]

theorem createZettel_failure_leaves_no_trace_witness :
    createZettel ⟨true, false, true⟩ fsDemo "zk" "20240101000000"
      = (.error .fileCreate, fsDemo) :=
  (createZettel_failure_leaves_no_trace ⟨true, false, true⟩ fsDemo "zk" "20240101000000"
    (by decide)).2 rfl rfl

/-- C6: when every step succeeds, `createZettel` returns the populated
`Zettel` and the created `README.md`, read back from the resulting
filesystem state, contains exactly the string `"# "` followed by the
identifier — the single pre-filled heading line and nothing else. -/
theorem createZettel_seeds_heading (env : FsEnv) (fs : FsState)
    (path isosec : String) (hclean : fs.cleanFor (path ++ "/" ++ isosec))
    (hm : env.mkdirOk = true) (hc : env.createOk = true) (hw : env.writeOk = true) :
    (createZettel env fs path isosec).1
      = .ok ⟨isosec, path ++ "/" ++ isosec, path ++ "/" ++ isosec ++ "/README.md"⟩ ∧
    readFile (createZettel env fs path isosec).2
      (path ++ "/" ++ isosec ++ "/README.md") = some ("# " ++ isosec) := by
  have hassoc : path ++ "/" ++ isosec ++ "/README.md"
      = (path ++ "/" ++ isosec ++ "/") ++ "README.md" := by
    apply String.ext
    simp [String.data_append]
  have hq : strLeads (path ++ "/" ++ isosec ++ "/")
      (path ++ "/" ++ isosec ++ "/README.md") = true := by
    rw [hassoc]
    exact strLeads_append _ _
  have hne := cleanFor_files_ne hclean hq
  simp only [createZettel, hm, hc, hw, fsWriteString, Bool.true_eq_false,
    Bool.false_eq_true, eq_self_iff_true, if_true, if_false]
  refine ⟨trivial, ?_⟩
  unfold readFile
  rw [List.map_append, List.find?_append,
    find?_write_update fs.files (path ++ "/" ++ isosec ++ "/README.md")
      ("# " ++ isosec) hne]
  simp [string_empty_append]

theorem createZettel_seeds_heading_witness :
    readFile (createZettel ⟨true, true, true⟩ fsDemo "zk" "20240101000000").2
      ("zk" ++ "/" ++ "20240101000000" ++ "/README.md") = some ("# " ++ "20240101000000") :=
  (createZettel_seeds_heading ⟨true, true, true⟩ fsDemo "zk" "20240101000000"
    (by decide) rfl rfl rfl).2

/-- C10: when directory and file creation succeed but the pre-fill write
fails, `createZettel` still returns a successful `Zettel`: the
`WriteString` error is discarded, no rollback happens (the directory and
the file remain on disk), and the content file is left empty. -/
theorem createZettel_discards_write_error (env : FsEnv) (fs : FsState)
    (path isosec : String) (hclean : fs.cleanFor (path ++ "/" ++ isosec))
    (hm : env.mkdirOk = true) (hc : env.createOk = true) (hw : env.writeOk = false) :
    (createZettel env fs path isosec).1
      = .ok ⟨isosec, path ++ "/" ++ isosec, path ++ "/" ++ isosec ++ "/README.md"⟩ ∧
    (createZettel env fs path isosec).2.dirs = fs.dirs ++ [path ++ "/" ++ isosec] ∧
    (createZettel env fs path isosec).2.files
      = fs.files ++ [(path ++ "/" ++ isosec ++ "/README.md", "")] ∧
    readFile (createZettel env fs path isosec).2
      (path ++ "/" ++ isosec ++ "/README.md") = some "" := by
  have hassoc : path ++ "/" ++ isosec ++ "/README.md"
      = (path ++ "/" ++ isosec ++ "/") ++ "README.md" := by
    apply String.ext
    simp [String.data_append]
  have hq : strLeads (path ++ "/" ++ isosec ++ "/")
      (path ++ "/" ++ isosec ++ "/README.md") = true := by
    rw [hassoc]
    exact strLeads_append _ _
  have hne := cleanFor_files_ne hclean hq
  simp only [createZettel, hm, hc, hw, fsWriteString, Bool.true_eq_false,
    Bool.false_eq_true, eq_self_iff_true, if_true, if_false]
  refine ⟨trivial, trivial, trivial, ?_⟩
  unfold readFile
  rw [List.find?_append]
  have hnone : fs.files.find?
      (fun f => f.1 == path ++ "/" ++ isosec ++ "/README.md") = none := by
    rw [List.find?_eq_none]
    intro f hf
    simp [hne f hf]
  rw [hnone]
  simp

theorem createZettel_discards_write_error_witness :
    readFile (createZettel ⟨true, true, false⟩ fsDemo "zk" "20240101000000").2
      ("zk" ++ "/" ++ "20240101000000" ++ "/README.md") = some "" :=
  (createZettel_discards_write_error ⟨true, true, false⟩ fsDemo "zk" "20240101000000"
    (by decide) rfl rfl rfl).2.2.2

/-! ### Claims about identifier generation -/

/-- C7: for every valid UTC instant, the generated identifier has exactly
14 characters, every character is an ASCII digit, and reading the 14
digits as a decimal number recovers
`year·10^10 + month·10^8 + day·10^6 + hour·10^4 + minute·10^2 + second` —
i.e. the string is the `YYYYMMDDHHMMSS` zero-padded rendering of the
instant's fields with no separators. -/
theorem generateIsosec_format (t : Instant) (h : t.Valid) :
    (generateIsosec t).length = 14 ∧
    (generateIsosec t).data.all isAsciiDigit = true ∧
    digitsVal (generateIsosec t).data = t.key := by
  have hk := Instant.key_lt_pow h
  have he : (generateIsosec t).data = padDigits 14 t.key := isosecChars_eq_key h
  refine ⟨?_, ?_, ?_⟩
  · show (generateIsosec t).data.length = 14
    rw [he]
    exact padDigits_length 14 _
  · rw [he]
    exact padDigits_all_digit 14 _ hk
  · rw [he]
    exact digitsVal_padDigits hk

theorem generateIsosec_format_witness :
    (⟨2024, 6, 1, 12, 30, 5⟩ : Instant).Valid ∧
    (generateIsosec ⟨2024, 6, 1, 12, 30, 5⟩).length = 14 ∧
    (generateIsosec ⟨2024, 6, 1, 12, 30, 5⟩).data.all isAsciiDigit = true ∧
    digitsVal (generateIsosec ⟨2024, 6, 1, 12, 30, 5⟩).data
      = (⟨2024, 6, 1, 12, 30, 5⟩ : Instant).key :=
  ⟨by decide, generateIsosec_format ⟨2024, 6, 1, 12, 30, 5⟩ (by decide)⟩

/-- C8: identifier generation is strictly monotone in the clock: for
valid instants, if `t2` is chronologically after `t1` (at one-second
granularity, "at least one second after" is exactly strict calendar
order), then the identifier generated at `t2` is strictly greater than
the one generated at `t1` in string (lexicographic) order. -/
theorem generateIsosec_strictMono (t1 t2 : Instant) (h1 : t1.Valid)
    (h2 : t2.Valid) (h : t1.before t2) :
    generateIsosec t1 < generateIsosec t2 :=
  isosec_lt h1 h2 h

theorem generateIsosec_strictMono_witness :
    (⟨2024, 12, 31, 23, 59, 59⟩ : Instant).Valid ∧
    (⟨2025, 1, 1, 0, 0, 0⟩ : Instant).Valid ∧
    (⟨2024, 12, 31, 23, 59, 59⟩ : Instant).before ⟨2025, 1, 1, 0, 0, 0⟩ ∧
    generateIsosec ⟨2024, 12, 31, 23, 59, 59⟩ < generateIsosec ⟨2025, 1, 1, 0, 0, 0⟩ :=
  ⟨by decide, by decide, by decide,
    generateIsosec_strictMono ⟨2024, 12, 31, 23, 59, 59⟩ ⟨2025, 1, 1, 0, 0, 0⟩
      (by decide) (by decide) (by decide)⟩

/-! ### Claims about identity resolution -/

/-- A git-config world in which the local configuration has
`user.name = "Alice"` but no `user.email` (exit status 1, the
distinguished not-found case), while the global configuration has
`user.name = "Bob"` and `user.email = "bob@global"`. -/
def cfgLocalPartial : GitConfigEnv :=
  ⟨fun scope key =>
    if scope == "--local" then
      (if key == "user.name" then .success "Alice\x00" else .exitErr 1)
    else
      (if key == "user.name" then .success "Bob\x00" else .success "bob@global\x00")⟩

/-- C2 counterexample: with `user.name` present locally as `"Alice"` and
only `user.email` missing locally, resolution succeeds but yields the
GLOBAL `user.name` value `"Bob"`, discarding the local value that was
present — the fallback is wholesale, not field-by-field as the claim
states. -/
theorem getUserInfo_not_field_by_field :
    localGitConfig cfgLocalPartial "user.name" = .ok "Alice" ∧
    localGitConfig cfgLocalPartial "user.email" = .error (.notFound "user.email") ∧
    getUserInfo cfgLocalPartial = .ok ("Bob", "bob@global") ∧
    ("Bob" : String) ≠ "Alice" :=
  ⟨rfl, rfl, rfl, by decide⟩

/-- C2 amended: when the local lookup of either `user.name` or
`user.email` fails — with any error, not only the distinguished
not-found condition — BOTH fields are re-read from the global
configuration (wholesale fallback), and if the global configuration
provides both, resolution succeeds with the two global values,
discarding any local value that did succeed. -/
theorem getUserInfo_wholesale_fallback (env : GitConfigEnv) (err : GitConfigErr)
    (gu ge : String)
    (h1 : localGitConfig env "user.name" = .error err ∨
      localGitConfig env "user.email" = .error err)
    (h2 : globalGitConfig env "user.name" = .ok gu)
    (h3 : globalGitConfig env "user.email" = .ok ge) :
    getUserInfo env = .ok (gu, ge) := by
  have hcond : (exceptOk (localGitConfig env "user.name") &&
      exceptOk (localGitConfig env "user.email")) = false := by
    rcases h1 with h | h <;> rw [h] <;> simp [exceptOk]
  simp [getUserInfo, hcond, h2, h3]

theorem getUserInfo_wholesale_fallback_witness :
    getUserInfo cfgLocalPartial = .ok ("Bob", "bob@global") :=
  getUserInfo_wholesale_fallback cfgLocalPartial (.notFound "user.email")
    "Bob" "bob@global" (Or.inr rfl) rfl rfl

/-! ### Helper lemmas: the Publisher's trace -/

theorem length_beq_zero_eq_false {changes : List String} (h : changes ≠ []) :
    (changes.length == 0) = false := by
  rw [beq_eq_false_iff_ne]
  simpa [List.length_eq_zero] using h

/-- After the matching step succeeds, whatever happens to the later
steps, the only path ever staged is the matched one, at most one commit
is created — carrying the zettel message and the resolved identity — and
at most one push happens. -/
theorem pushZettel_after_match {env : PushEnv} {id u e : String}
    {changes : List String}
    (hgu : getUserInfo env.gitConfig = .ok (u, e))
    (hw : env.worktreeOk = true)
    (hst : env.statusResult = .ok changes)
    (hne0 : changes ≠ [])
    (hne : findChange changes id ≠ "") :
    (pushZettel env id).2.staged = [findChange changes id] ∧
    ((pushZettel env id).2.commits = [] ∨
      (pushZettel env id).2.commits = [⟨"Add zettel " ++ id, u, e⟩]) ∧
    (pushZettel env id).2.pushes ≤ 1 := by
  have hlen := length_beq_zero_eq_false hne0
  have hfc : (findChange changes id == "") = false := beq_eq_false_iff_ne.mpr hne
  simp only [pushZettel, hgu, hw, hst, hlen, hfc, Bool.true_eq_false,
    Bool.false_eq_true, eq_self_iff_true, if_true, if_false]
  cases ha : env.addOk (findChange changes id) <;> cases hc : env.commitOk <;>
    cases hau : env.authOk <;> cases hp : env.pushOk <;> cases ho : env.commitObjOk <;>
    simp [ha, hc, hau, hp, ho]

/-! ### Concrete environments for Publisher witnesses -/

/-- A git-config world in which the local configuration provides both
identity keys. -/
def cfgOkIdentity : GitConfigEnv :=
  ⟨fun scope key =>
    if scope == "--local" then
      (if key == "user.name" then .success "Alice\x00" else .success "alice@home\x00")
    else .exitErr 1⟩

/-- The all-steps-succeed Publisher environment, with one matching change
and one unrelated change in the worktree status. -/
def envHappy : PushEnv :=
  { gitConfig := cfgOkIdentity, worktreeOk := true,
    statusResult := .ok ["notes/20240101000000/README.md", "unrelated.txt"],
    addOk := fun _ => true, commitOk := true, authOk := true, pushOk := true,
    commitObjOk := true }

/-- Like `envHappy` but the worktree status is empty. -/
def envNoChanges : PushEnv := { envHappy with statusResult := .ok [] }

/-- Like `envHappy` but no status key matches the identifier. -/
def envNoMatch : PushEnv := { envHappy with statusResult := .ok ["unrelated.txt"] }

/-- Like `envHappy` but `worktree.Add` fails. -/
def envAddFails : PushEnv := { envHappy with addOk := fun _ => false }

/-! ### Claims about the Publisher -/

/-- C1: whenever the Publisher reaches the matching step with a non-empty
status whose keys contain the (nonempty) identifier somewhere, the single
staged path is the first key in iteration order containing the identifier
(`List.find?` first-match semantics); that key contains the identifier
and belongs to the status; no other status key is ever staged; any
commit created carries only the zettel message; and at most one commit
and one push happen. -/
theorem pushZettel_stages_only_first_match (env : PushEnv) (id u e : String)
    (changes : List String)
    (hid : id ≠ "")
    (hgu : getUserInfo env.gitConfig = .ok (u, e))
    (hw : env.worktreeOk = true)
    (hst : env.statusResult = .ok changes)
    (hmatch : ∃ k ∈ changes, goContains k id = true) :
    (pushZettel env id).2.staged = [findChange changes id] ∧
    findChange changes id = ((changes.find? fun c => goContains c id).getD "") ∧
    findChange changes id ∈ changes ∧
    goContains (findChange changes id) id = true ∧
    (∀ p ∈ changes, p ≠ findChange changes id → p ∉ (pushZettel env id).2.staged) ∧
    (∀ c ∈ (pushZettel env id).2.commits, c.message = "Add zettel " ++ id) ∧
    (pushZettel env id).2.commits.length ≤ 1 ∧
    (pushZettel env id).2.pushes ≤ 1 := by
  have hne0 : changes ≠ [] := by
    obtain ⟨k, hk, _⟩ := hmatch
    intro hcon
    subst hcon
    simp at hk
  have hne := findChange_ne_empty hid hmatch
  obtain ⟨hstaged, hcommits, hpushes⟩ := pushZettel_after_match hgu hw hst hne0 hne
  obtain ⟨hmem, hcont⟩ := findChange_spec hmatch
  refine ⟨hstaged, findChange_eq_find? changes id, hmem, hcont, ?_, ?_, ?_, hpushes⟩
  · intro p hp hne2
    rw [hstaged]
    simp [hne2]
  · intro c hc
    rcases hcommits with h | h
    · rw [h] at hc
      simp at hc
    · rw [h] at hc
      simp at hc
      rw [hc]
  · rcases hcommits with h | h <;> simp [h]

theorem pushZettel_stages_only_first_match_witness :
    (pushZettel envHappy "20240101000000").2.staged
      = [findChange ["notes/20240101000000/README.md", "unrelated.txt"]
          "20240101000000"] :=
  (pushZettel_stages_only_first_match envHappy "20240101000000" "Alice" "alice@home"
    ["notes/20240101000000/README.md", "unrelated.txt"]
    (by decide) rfl rfl rfl (by decide)).1

/-- C4: once identity, worktree and status have been obtained, an empty
status makes `PushZettel` return the no-changes error value with an
empty effect trace (nothing staged, committed or pushed), and a
non-empty status with no key containing the identifier makes it return
the change-not-found error value naming the identifier, likewise with an
empty effect trace. -/
theorem pushZettel_fails_cleanly_without_match (env : PushEnv) (id u e : String)
    (changes : List String)
    (hgu : getUserInfo env.gitConfig = .ok (u, e))
    (hw : env.worktreeOk = true)
    (hst : env.statusResult = .ok changes) :
    (changes = [] →
      pushZettel env id = (.retErr "git: no changes detected", GitTrace.none)) ∧
    (changes ≠ [] → (∀ k ∈ changes, goContains k id = false) →
      pushZettel env id
        = (.retErr ("git: no changes detected for zettel " ++ id), GitTrace.none)) := by
  constructor
  · intro hnil
    subst hnil
    simp [pushZettel, hgu, hw, hst, GitTrace.none]
  · intro hne0 hnomatch
    have hfc := findChange_eq_empty hnomatch
    have hlen := length_beq_zero_eq_false hne0
    simp [pushZettel, hgu, hw, hst, hlen, hfc, GitTrace.none]

theorem pushZettel_fails_cleanly_without_match_witness :
    pushZettel envNoChanges "20240101000000"
      = (.retErr "git: no changes detected", GitTrace.none) :=
  (pushZettel_fails_cleanly_without_match envNoChanges "20240101000000"
    "Alice" "alice@home" [] rfl rfl rfl).1 rfl

/-- C5 counterexample: with identity, worktree and status all fine and a
matching change present, a failing `worktree.Add` ends the run in
`log.Fatal` — the process terminates; no error value (and no commit
object) is ever returned to the caller, contradicting the claim that
every step failure surfaces as an error result of the function. -/
theorem pushZettel_stage_failure_is_fatal :
    (pushZettel envAddFails "20240101000000").1 = .fatal := rfl

/-- C5 amended: `PushZettel` is a linear sequence whose every step is a
hard stop, but only the empty-status and no-match checks surface as
error results returned to the caller; failures of identity resolution,
worktree access, status, stage, commit, SSH auth, push and commit lookup
terminate the process via `log.Fatal` (outcome `fatal`), leaving exactly
the effects of the steps already completed. -/
theorem pushZettel_linear_hard_stops (env : PushEnv) (id : String) :
    ((∃ msg, getUserInfo env.gitConfig = .error msg) →
      pushZettel env id = (.fatal, GitTrace.none)) ∧
    (∀ u e, getUserInfo env.gitConfig = .ok (u, e) →
      ((env.worktreeOk = false → pushZettel env id = (.fatal, GitTrace.none)) ∧
       (env.worktreeOk = true →
        ((env.statusResult = .error () → pushZettel env id = (.fatal, GitTrace.none)) ∧
         (∀ changes, env.statusResult = .ok changes →
          ((changes = [] →
             pushZettel env id = (.retErr "git: no changes detected", GitTrace.none)) ∧
           (changes ≠ [] → findChange changes id = "" →
             pushZettel env id
               = (.retErr ("git: no changes detected for zettel " ++ id),
                  GitTrace.none)) ∧
           (changes ≠ [] → findChange changes id ≠ "" →
             ((env.addOk (findChange changes id) = false →
                pushZettel env id = (.fatal, ⟨[findChange changes id], [], 0⟩)) ∧
              (env.addOk (findChange changes id) = true → env.commitOk = false →
                pushZettel env id = (.fatal, ⟨[findChange changes id], [], 0⟩)) ∧
              (env.addOk (findChange changes id) = true → env.commitOk = true →
                env.authOk = false →
                pushZettel env id
                  = (.fatal, ⟨[findChange changes id],
                      [⟨"Add zettel " ++ id, u, e⟩], 0⟩)) ∧
              (env.addOk (findChange changes id) = true → env.commitOk = true →
                env.authOk = true → env.pushOk = false →
                pushZettel env id
                  = (.fatal, ⟨[findChange changes id],
                      [⟨"Add zettel " ++ id, u, e⟩], 0⟩)) ∧
              (env.addOk (findChange changes id) = true → env.commitOk = true →
                env.authOk = true → env.pushOk = true → env.commitObjOk = false →
                pushZettel env id
                  = (.fatal, ⟨[findChange changes id],
                      [⟨"Add zettel " ++ id, u, e⟩], 1⟩)) ∧
              (env.addOk (findChange changes id) = true → env.commitOk = true →
                env.authOk = true → env.pushOk = true → env.commitObjOk = true →
                pushZettel env id
                  = (.retOk ⟨"Add zettel " ++ id, u, e⟩,
                     ⟨[findChange changes id],
                      [⟨"Add zettel " ++ id, u, e⟩], 1⟩)))))))))) := by
  constructor
  · rintro ⟨msg, hgu⟩
    simp [pushZettel, hgu, GitTrace.none]
  · intro u e hgu
    constructor
    · intro hwf
      simp [pushZettel, hgu, hwf, GitTrace.none]
    · intro hw
      constructor
      · intro hse
        simp [pushZettel, hgu, hw, hse, GitTrace.none]
      · intro changes hst
        refine ⟨?_, ?_, ?_⟩
        · intro hnil
          subst hnil
          simp [pushZettel, hgu, hw, hst, GitTrace.none]
        · intro hne0 hfc
          have hlen := length_beq_zero_eq_false hne0
          simp [pushZettel, hgu, hw, hst, hlen, hfc, GitTrace.none]
        · intro hne0 hfc
          have hlen := length_beq_zero_eq_false hne0
          have hfcb : (findChange changes id == "") = false :=
            beq_eq_false_iff_ne.mpr hfc
          refine ⟨?_, ?_, ?_, ?_, ?_, ?_⟩ <;> intros <;>
            simp [pushZettel, hgu, hw, hst, hlen, hfcb, *]

theorem pushZettel_linear_hard_stops_witness :
    pushZettel envHappy "20240101000000"
      = (.retOk ⟨"Add zettel " ++ "20240101000000", "Alice", "alice@home"⟩,
        ⟨[findChange ["notes/20240101000000/README.md", "unrelated.txt"]
            "20240101000000"],
         [⟨"Add zettel " ++ "20240101000000", "Alice", "alice@home"⟩], 1⟩) := by
  have h := pushZettel_linear_hard_stops envHappy "20240101000000"
  have h2 := ((((h.2 "Alice" "alice@home" rfl).2 rfl).2
    ["notes/20240101000000/README.md", "unrelated.txt"] rfl).2.2
    (by decide) (by decide))
  exact h2.2.2.2.2.2 rfl rfl rfl rfl rfl

/-- A git-config world in which local `user.name` is set to the empty
string (`git config --get --null` exits 0 printing only the NUL
terminator) and local `user.email` is present. -/
def cfgEmptyName : GitConfigEnv :=
  ⟨fun scope key =>
    if scope == "--local" then
      (if key == "user.name" then .success "\x00" else .success "alice@home\x00")
    else .exitErr 1⟩

/-- Like `envHappy` but with the empty-`user.name` configuration. -/
def envEmptyName : PushEnv := { envHappy with gitConfig := cfgEmptyName }

/-- C9 counterexample: when `git config` succeeds while returning an
empty value, identity resolution succeeds with an empty name — neither
yielding two non-empty strings nor failing — and `PushZettel` proceeds
all the way to a commit whose author name is the empty string. -/
theorem pushZettel_commits_with_empty_author :
    getUserInfo cfgEmptyName = .ok ("", "alice@home") ∧
    (pushZettel envEmptyName "20240101000000").2.commits
      = [⟨"Add zettel 20240101000000", "", "alice@home"⟩] ∧
    (pushZettel envEmptyName "20240101000000").1
      = .retOk ⟨"Add zettel 20240101000000", "", "alice@home"⟩ :=
  ⟨rfl, rfl, rfl⟩

/-- C9 amended: `PushZettel` commits only with exactly the name/email
pair that identity resolution returned — possibly empty strings, since
resolution only checks for lookup errors, not emptiness — and when
resolution fails it terminates before any git effect. -/
theorem pushZettel_commits_resolved_identity (env : PushEnv) (id : String) :
    ((pushZettel env id).2.commits = [] ∨
      (∃ u e, getUserInfo env.gitConfig = .ok (u, e) ∧
        (pushZettel env id).2.commits = [⟨"Add zettel " ++ id, u, e⟩])) ∧
    (∀ msg, getUserInfo env.gitConfig = .error msg →
      pushZettel env id = (.fatal, GitTrace.none)) := by
  constructor
  · cases hgu : getUserInfo env.gitConfig with
    | error msg =>
      left
      simp [pushZettel, hgu, GitTrace.none]
    | ok p =>
      obtain ⟨u, e⟩ := p
      by_cases hw : env.worktreeOk = true
      · cases hst : env.statusResult with
        | error u2 =>
          left
          simp [pushZettel, hgu, hw, hst, GitTrace.none]
        | ok changes =>
          by_cases hnil : changes = []
          · left
            subst hnil
            simp [pushZettel, hgu, hw, hst, GitTrace.none]
          · by_cases hfc : findChange changes id = ""
            · left
              have hlen := length_beq_zero_eq_false hnil
              simp [pushZettel, hgu, hw, hst, hlen, hfc, GitTrace.none]
            · obtain ⟨_, hcommits, _⟩ := pushZettel_after_match hgu hw hst hnil hfc
              rcases hcommits with h | h
              · exact Or.inl h
              · exact Or.inr ⟨u, e, rfl, h⟩
      · left
        rw [Bool.not_eq_true] at hw
        simp [pushZettel, hgu, hw, GitTrace.none]
  · intro msg hgu
    simp [pushZettel, hgu, GitTrace.none]

theorem pushZettel_commits_resolved_identity_witness :
    ((pushZettel envEmptyName "20240101000000").2.commits = [] ∨
      (∃ u e, getUserInfo envEmptyName.gitConfig = .ok (u, e) ∧
        (pushZettel envEmptyName "20240101000000").2.commits
          = [⟨"Add zettel " ++ "20240101000000", u, e⟩])) ∧
    (∀ msg, getUserInfo envEmptyName.gitConfig = .error msg →
      pushZettel envEmptyName "20240101000000" = (.fatal, GitTrace.none)) :=
  pushZettel_commits_resolved_identity envEmptyName "20240101000000"

end Zet
